import Mathlib

/-!
Verification of the gas-model particle simulation (`particle_sim.py`).

The Python source is shallowly embedded below.  Python floats are modelled
as exact real numbers (`ℝ`); `math.hypot dx dy` is `Real.sqrt (dx^2 + dy^2)`.
Mutation of a particle is modelled by returning the updated particle.
Statefulness of the simulation loop is modelled by explicit state passing.
Division that raises `ZeroDivisionError` in Python is modelled with `Option`.
-/

open scoped Classical

/-- Constant `SCREEN_WIDTH = 900` from the source. -/
def SCREEN_WIDTH : ℝ := 900

/-- Constant `SCREEN_HEIGHT = 900` from the source. -/
def SCREEN_HEIGHT : ℝ := 900

/-- Constant `GRID_SIZE = 10` from the source (grid cell size in pixels). -/
def GRID_SIZE : ℝ := 10

/-- The `Particle` class state: mass `m`, position `x, y`, velocity
`v_x, v_y`, radius `r` (all Python floats, modelled as reals). -/
structure Particle where
  m : ℝ
  x : ℝ
  y : ℝ
  v_x : ℝ
  v_y : ℝ
  r : ℝ

instance : Inhabited Particle := ⟨⟨0, 0, 0, 0, 0, 0⟩⟩

/-- The wall-test on the x axis inside `Particle.move`, evaluated on the
position after the position update `x += v_x * dt`:
`self.x - self.r < 0 or self.x + self.r > SCREEN_WIDTH`. -/
def Particle.bounceX (p : Particle) (dt : ℝ) : Prop :=
  p.x + p.v_x * dt - p.r < 0 ∨ p.x + p.v_x * dt + p.r > SCREEN_WIDTH

/-- The wall-test on the y axis inside `Particle.move`, evaluated on the
position after the position update `y += v_y * dt`. -/
def Particle.bounceY (p : Particle) (dt : ℝ) : Prop :=
  p.y + p.v_y * dt - p.r < 0 ∨ p.y + p.v_y * dt + p.r > SCREEN_HEIGHT

/-- `Particle.move(dt)`: advance the position by `velocity * dt`; on each
axis, if the particle extent leaves the domain, negate that velocity
component and clamp the position with
`max(self.r, min(BOUND - self.r, pos))`; return the updated particle and
the number of axes that bounced (`wall_bounce`). -/
noncomputable def Particle.move (p : Particle) (dt : ℝ) : Particle × ℕ :=
  let x1 := p.x + p.v_x * dt
  let y1 := p.y + p.v_y * dt
  let vx1 := if p.bounceX dt then -p.v_x else p.v_x
  let x2 := if p.bounceX dt then max p.r (min (SCREEN_WIDTH - p.r) x1) else x1
  let vy1 := if p.bounceY dt then -p.v_y else p.v_y
  let y2 := if p.bounceY dt then max p.r (min (SCREEN_HEIGHT - p.r) y1) else y1
  (⟨p.m, x2, y2, vx1, vy1, p.r⟩,
    (if p.bounceX dt then 1 else 0) + (if p.bounceY dt then 1 else 0))

/-- `math.hypot dx dy`, over exact reals. -/
noncomputable def hypot (dx dy : ℝ) : ℝ := Real.sqrt (dx ^ 2 + dy ^ 2)

/-- `Particle.check_collision(other)`: Euclidean center distance strictly
below the sum of the radii. -/
noncomputable def check_collision (a b : Particle) : Prop :=
  hypot (b.x - a.x) (b.y - a.y) < a.r + b.r

/-- `Particle.resolve_collision(other)` from the source, returning the
updated pair `(self, other)`.  If the center distance is zero, or if the
dot product of the relative velocity `(self.v - other.v)` with the
self-to-other unit normal is strictly positive, the pair is returned
unchanged; otherwise the elastic impulse is applied to both velocities and
the positions are pushed apart along the normal by half the overlap
plus `1`. -/
noncomputable def resolve_collision (a b : Particle) : Particle × Particle :=
  let dx := b.x - a.x
  let dy := b.y - a.y
  let dist := hypot dx dy
  if dist = 0 then (a, b)
  else
    let nx := dx / dist
    let ny := dy / dist
    let dvx := a.v_x - b.v_x
    let dvy := a.v_y - b.v_y
    let dot := dvx * nx + dvy * ny
    if dot > 0 then (a, b)
    else
      let restitution : ℝ := 1
      let impulse := (-(1 + restitution) * dot) / (1 / a.m + 1 / b.m)
      let impulse_x := impulse * nx
      let impulse_y := impulse * ny
      let overlap := 0.5 * (a.r + b.r - dist + 1)
      (⟨a.m, a.x - nx * overlap, a.y - ny * overlap,
         a.v_x + impulse_x / a.m, a.v_y + impulse_y / a.m, a.r⟩,
       ⟨b.m, b.x + nx * overlap, b.y + ny * overlap,
         b.v_x - impulse_x / b.m, b.v_y - impulse_y / b.m, b.r⟩)

/-- Kinetic energy `(1/2) m (v_x^2 + v_y^2)` of a particle (the quantity
named by the spec's energy-conservation property). -/
noncomputable def kineticEnergy (p : Particle) : ℝ :=
  1 / 2 * p.m * (p.v_x ^ 2 + p.v_y ^ 2)

/-- The per-particle body of the `simulate` loop (lines 112-124): save the
pre-move velocity, call `move`, and if any wall bounce occurred add
`2 * m * |old_v|` for each axis whose post-move extent touches or crosses
the wall (`<= 0` / `>= BOUND` tests).  Returns the moved particle, the
amount added to `total_momentum_transfer`, and `wall_bounce` (the amount
added to `bounces`). -/
noncomputable def simStep (p : Particle) (dt : ℝ) : Particle × ℝ × ℕ :=
  let old_vx := p.v_x
  let old_vy := p.v_y
  let mv := p.move dt
  let moved := mv.1
  let wall_bounce := mv.2
  let transfer :=
    if wall_bounce ≠ 0 then
      (if moved.x - moved.r ≤ 0 ∨ moved.x + moved.r ≥ SCREEN_WIDTH then
        2 * moved.m * |old_vx| else 0) +
      (if moved.y - moved.r ≤ 0 ∨ moved.y + moved.r ≥ SCREEN_HEIGHT then
        2 * moved.m * |old_vy| else 0)
    else 0
  (moved, transfer, wall_bounce)

/-- Python float division, which raises `ZeroDivisionError` on a zero
denominator: modelled as `none` on a zero denominator. -/
def divOrFail (a b : ℚ) : Option ℚ := if b = 0 then none else some (a / b)

/-- `perimeter = 2 * (SCREEN_WIDTH + SCREEN_HEIGHT)` from `simulate`. -/
def perimeter : ℚ := 2 * (900 + 900)

/-- The once-per-second reporting block of `simulate` (lines 150-155):
`pressure = total_momentum_transfer / perimeter`, the ideal-gas reference
pressure `len(particles) * k_B * Target_Temp / 900**2` with the local
constants `k_B = 1.38e-23` and `Target_Temp = 300`, and
`percent_diff = 100 * abs(pressure - ideal_pressure) / ideal_pressure`.
Every Python division is modelled with `divOrFail`, so the result is
`none` exactly when one of them raises `ZeroDivisionError`. -/
def pressureReport (numParticles : ℕ) (total_momentum_transfer : ℚ) :
    Option (ℚ × ℚ × ℚ) :=
  (divOrFail total_momentum_transfer perimeter).bind fun pressure =>
  (divOrFail ((numParticles : ℚ) * (138 / 10 ^ 25) * 300) (900 ^ 2)).bind
    fun ideal_pressure =>
  (divOrFail (100 * |pressure - ideal_pressure|) ideal_pressure).bind
    fun percent_diff =>
  some (pressure, ideal_pressure, percent_diff)

/-- `get_cell(x, y) = (int(x // GRID_SIZE), int(y // GRID_SIZE))`,
parametrised by the cell size `G` (the source instantiates `G` with
`GRID_SIZE`; the spec quantifies over any valid cell size). -/
noncomputable def get_cell (G x y : ℝ) : ℤ × ℤ := (⌊x / G⌋, ⌊y / G⌋)

/-- The spatial grid: Python's insertion-ordered `dict` from cell
coordinates to the bucket of particle indices in that cell. -/
abbrev Grid := List ((ℤ × ℤ) × List ℕ)

/-- `grid.setdefault(cell, []).append(p)`: append index `i` to the bucket
of cell `c`, adding a new entry at the end when `c` is not yet a key. -/
def gridInsert : Grid → ℤ × ℤ → ℕ → Grid
  | [], c, i => [(c, [i])]
  | (c', l) :: t, c, i =>
      if c' = c then (c', l ++ [i]) :: t else (c', l) :: gridInsert t c i

/-- The grid-building loop of `simulate` (lines 127-130), one particle at
a time, carrying the index of the next particle. -/
noncomputable def buildGridAux (G : ℝ) : List Particle → ℕ → Grid → Grid
  | [], _, g => g
  | p :: t, i, g => buildGridAux G t (i + 1) (gridInsert g (get_cell G p.x p.y) i)

/-- The grid built from the particle list: each particle is appended to
the bucket of the cell containing its position; particle identity is its
index in the list. -/
noncomputable def buildGrid (G : ℝ) (ps : List Particle) : Grid :=
  buildGridAux G ps 0 []

/-- `grid.get(cell, [])`: the bucket stored for `c`, or `[]` when `c` is
not a key. -/
def gridGet : Grid → ℤ × ℤ → List ℕ
  | [], _ => []
  | (c', l) :: t, c => if c' = c then l else gridGet t c

/-- The Moore neighborhood list built in `simulate` (lines 134-138):
`[(cell[0]+dx, cell[1]+dy) for dx in (-1,0,1) for dy in (-1,0,1)]`. -/
def neighbors (c : ℤ × ℤ) : List (ℤ × ℤ) :=
  ([-1, 0, 1] : List ℤ).flatMap fun dx =>
    ([-1, 0, 1] : List ℤ).map fun dy => (c.1 + dx, c.2 + dy)

/-- The sequence of ordered candidate encounters `(a, b)` produced by the
nested loops of `simulate` (lines 133-141): for each grid entry in order,
for each `a` in its bucket, for each Moore neighbor cell, for each `b` in
that neighbor's bucket. -/
def encounters (g : Grid) : List (ℕ × ℕ) :=
  g.flatMap fun cb =>
    cb.2.flatMap fun a =>
      (neighbors cb.1).flatMap fun nb =>
        (gridGet g nb).map fun b => (a, b)

/-- The mutable state of the collision pass: the particle slots, the
`visited` set of ordered identity pairs, and (for specification purposes)
the list of pairs on which `check_collision` has been invoked. -/
structure PassState where
  ps : List Particle
  visited : List (ℕ × ℕ)
  log : List (ℕ × ℕ)

/-- The body of the innermost loop of `simulate` (lines 142-146): skip
when `a is b` or the unordered pair was visited; otherwise run
`a.check_collision(b)`, on `True` run `a.resolve_collision(b)` (writing
both updated particles back), and add `(a, b)` to `visited`. -/
noncomputable def passStep (s : PassState) (ab : ℕ × ℕ) : PassState :=
  if ab.1 = ab.2 ∨ (ab.1, ab.2) ∈ s.visited ∨ (ab.2, ab.1) ∈ s.visited then s
  else
    { ps :=
        if check_collision (s.ps.getD ab.1 default) (s.ps.getD ab.2 default) then
          ((s.ps.set ab.1
              (resolve_collision (s.ps.getD ab.1 default) (s.ps.getD ab.2 default)).1).set
            ab.2
            (resolve_collision (s.ps.getD ab.1 default) (s.ps.getD ab.2 default)).2)
        else s.ps
      visited := (ab.1, ab.2) :: s.visited
      log := s.log ++ [(ab.1, ab.2)] }

/-- The whole collision pass of one `simulate` tick: fold the loop body
over the encounter sequence of the grid built from the current
positions, starting with an empty `visited` set. -/
noncomputable def collisionPass (G : ℝ) (ps : List Particle) : PassState :=
  (encounters (buildGrid G ps)).foldl passStep ⟨ps, [], []⟩

/-- Claim C10: `move` never changes the speed: each velocity component is
either unchanged or negated, so `v_x^2 + v_y^2` and the kinetic energy are
identical before and after any call, for every particle and every `dt`. -/
theorem claim_C10_move_preserves_speed (p : Particle) (dt : ℝ) :
    ((p.move dt).1.v_x = p.v_x ∨ (p.move dt).1.v_x = -p.v_x) ∧
    ((p.move dt).1.v_y = p.v_y ∨ (p.move dt).1.v_y = -p.v_y) ∧
    (p.move dt).1.v_x ^ 2 + (p.move dt).1.v_y ^ 2 = p.v_x ^ 2 + p.v_y ^ 2 ∧
    kineticEnergy (p.move dt).1 = kineticEnergy p := by
  simp only [Particle.move, kineticEnergy]
  split_ifs <;> simp

/-- Claim C1 (code bug): for the spec scenario of two equal-mass radius-1
particles overlapping head-on with velocities `(+1,0)` and `(-1,0)`,
`resolve_collision` returns both particles unchanged.  There is no
velocity exchange: the guard `if dot > 0: return` fires, because
`dot = (self.v - other.v) . n` is positive for an approaching pair, so the
code skips exactly the approaching pairs its own comment says it keeps. -/
theorem claim_C1_head_on_pair_unchanged :
    resolve_collision ⟨1, 0, 0, 1, 0, 1⟩ ⟨1, 1, 0, -1, 0, 1⟩ =
      (⟨1, 0, 0, 1, 0, 1⟩, ⟨1, 1, 0, -1, 0, 1⟩) := by
  simp only [resolve_collision, hypot]
  norm_num [Real.sqrt_one]

/-- Claim C2 (code bug): an overlapping pair that is strictly moving apart
along the center-to-center normal (`(other.v - self.v) . n = 2 > 0`) is
not left unchanged: `resolve_collision` applies the elastic impulse
(reversing both velocities) and pushes the positions apart, because the
separating pair has `dot = (self.v - other.v) . n = -2 <= 0` and so passes
the inverted guard. -/
theorem claim_C2_separating_pair_modified :
    resolve_collision ⟨1, 0, 0, -1, 0, 1⟩ ⟨1, 1, 0, 1, 0, 1⟩ =
      (⟨1, -1, 0, 1, 0, 1⟩, ⟨1, 2, 0, -1, 0, 1⟩) := by
  simp only [resolve_collision, hypot]
  norm_num [Real.sqrt_one]

/-- Claim C6 (code bug): with zero particles, the reporting block fails:
`ideal_pressure` is `0`, and `percent_diff = 100 * |pressure - 0| / 0`
divides by zero (`ZeroDivisionError` in Python), modelled as `none`. -/
theorem claim_C6_report_fails_on_zero_particles :
    pressureReport 0 0 = none := by
  norm_num [pressureReport, divOrFail, perimeter]

/-- Algebraic core of energy conservation: applying the impulse
`-(1+1) * dot / (1/ma + 1/mb)` along any unit vector `(nx, ny)` to two
velocities (scaled by the inverse masses, in opposite directions)
preserves total kinetic energy. -/
theorem elastic_impulse_energy (ma mb vax vay vbx vby nx ny : ℝ)
    (hma : ma ≠ 0) (hmb : mb ≠ 0) (hM : 1 / ma + 1 / mb ≠ 0)
    (hn : nx ^ 2 + ny ^ 2 = 1) :
    1 / 2 * ma *
        ((vax + (-(1 + 1) * ((vax - vbx) * nx + (vay - vby) * ny) / (1 / ma + 1 / mb)) * nx / ma) ^ 2 +
         (vay + (-(1 + 1) * ((vax - vbx) * nx + (vay - vby) * ny) / (1 / ma + 1 / mb)) * ny / ma) ^ 2) +
      1 / 2 * mb *
        ((vbx - (-(1 + 1) * ((vax - vbx) * nx + (vay - vby) * ny) / (1 / ma + 1 / mb)) * nx / mb) ^ 2 +
         (vby - (-(1 + 1) * ((vax - vbx) * nx + (vay - vby) * ny) / (1 / ma + 1 / mb)) * ny / mb) ^ 2) =
    1 / 2 * ma * (vax ^ 2 + vay ^ 2) + 1 / 2 * mb * (vbx ^ 2 + vby ^ 2) := by
  have hab : ma + mb ≠ 0 := by
    intro h
    apply hM
    have hmb' : mb = -ma := by linarith
    rw [hmb', one_div, one_div, inv_neg]
    ring
  have step1 : ∀ j : ℝ,
      1 / 2 * ma * ((vax + j * nx / ma) ^ 2 + (vay + j * ny / ma) ^ 2) +
        1 / 2 * mb * ((vbx - j * nx / mb) ^ 2 + (vby - j * ny / mb) ^ 2) =
      1 / 2 * ma * (vax ^ 2 + vay ^ 2) + 1 / 2 * mb * (vbx ^ 2 + vby ^ 2) +
        (j * ((vax - vbx) * nx + (vay - vby) * ny) +
          j ^ 2 / 2 * (1 / ma + 1 / mb) * (nx ^ 2 + ny ^ 2)) := by
    intro j
    field_simp
    ring
  have step2 : ∀ d M : ℝ, M ≠ 0 →
      -(1 + 1) * d / M * d + (-(1 + 1) * d / M) ^ 2 / 2 * M = 0 := by
    intro d M hM0
    field_simp
    ring
  rw [step1 (-(1 + 1) * ((vax - vbx) * nx + (vay - vby) * ny) / (1 / ma + 1 / mb)), hn,
    mul_one]
  linarith [step2 ((vax - vbx) * nx + (vay - vby) * ny) (1 / ma + 1 / mb) hM]

/-- Claim C3: for every pair of particles with strictly positive masses
and non-coincident centers, `resolve_collision` preserves the vector sum
of momenta `m_a v_a + m_b v_b` exactly (both components). -/
theorem claim_C3_momentum_conserved (a b : Particle) (hma : 0 < a.m) (hmb : 0 < b.m)
    (hcc : ¬(a.x = b.x ∧ a.y = b.y)) :
    a.m * (resolve_collision a b).1.v_x + b.m * (resolve_collision a b).2.v_x =
      a.m * a.v_x + b.m * b.v_x ∧
    a.m * (resolve_collision a b).1.v_y + b.m * (resolve_collision a b).2.v_y =
      a.m * a.v_y + b.m * b.v_y := by
  have ha : a.m ≠ 0 := ne_of_gt hma
  have hb : b.m ≠ 0 := ne_of_gt hmb
  simp only [resolve_collision]
  split_ifs with h1 h2
  · exact ⟨rfl, rfl⟩
  · exact ⟨rfl, rfl⟩
  · constructor <;> · dsimp only
                      field_simp
                      ring

/-- Witness for C3 at a concrete input: masses `1` and `1`, centers
`(0,0)` and `(2,0)`, velocities `(5,0)` and `(-1,0)`. -/
theorem claim_C3_momentum_conserved_witness :
    (1 : ℝ) * (resolve_collision ⟨1, 0, 0, 5, 0, 1⟩ ⟨1, 2, 0, -1, 0, 1⟩).1.v_x +
        1 * (resolve_collision ⟨1, 0, 0, 5, 0, 1⟩ ⟨1, 2, 0, -1, 0, 1⟩).2.v_x =
      1 * 5 + 1 * (-1) ∧
    (1 : ℝ) * (resolve_collision ⟨1, 0, 0, 5, 0, 1⟩ ⟨1, 2, 0, -1, 0, 1⟩).1.v_y +
        1 * (resolve_collision ⟨1, 0, 0, 5, 0, 1⟩ ⟨1, 2, 0, -1, 0, 1⟩).2.v_y =
      1 * 0 + 1 * 0 :=
  claim_C3_momentum_conserved ⟨1, 0, 0, 5, 0, 1⟩ ⟨1, 2, 0, -1, 0, 1⟩
    (by norm_num) (by norm_num) (by norm_num)

/-- Claim C4: for every pair of particles with strictly positive masses
and non-coincident centers, `resolve_collision` (restitution `1`)
preserves the total kinetic energy
`(1/2) m_a |v_a|^2 + (1/2) m_b |v_b|^2` exactly. -/
theorem claim_C4_energy_conserved (a b : Particle) (hma : 0 < a.m) (hmb : 0 < b.m)
    (hcc : ¬(a.x = b.x ∧ a.y = b.y)) :
    kineticEnergy (resolve_collision a b).1 + kineticEnergy (resolve_collision a b).2 =
      kineticEnergy a + kineticEnergy b := by
  have ha : a.m ≠ 0 := ne_of_gt hma
  have hb : b.m ≠ 0 := ne_of_gt hmb
  have hM : 1 / a.m + 1 / b.m ≠ 0 :=
    ne_of_gt (add_pos (one_div_pos.mpr hma) (one_div_pos.mpr hmb))
  simp only [resolve_collision, kineticEnergy]
  split_ifs with h1 h2
  · rfl
  · rfl
  · dsimp only
    have hd : hypot (b.x - a.x) (b.y - a.y) ≠ 0 := h1
    have hnn : (0 : ℝ) ≤ (b.x - a.x) ^ 2 + (b.y - a.y) ^ 2 := by positivity
    have hdsq : hypot (b.x - a.x) (b.y - a.y) ^ 2 = (b.x - a.x) ^ 2 + (b.y - a.y) ^ 2 :=
      Real.sq_sqrt hnn
    have hn : ((b.x - a.x) / hypot (b.x - a.x) (b.y - a.y)) ^ 2 +
        ((b.y - a.y) / hypot (b.x - a.x) (b.y - a.y)) ^ 2 = 1 := by
      rw [div_pow, div_pow, div_add_div_same, ← hdsq]
      exact div_self (pow_ne_zero 2 hd)
    exact elastic_impulse_energy a.m b.m a.v_x a.v_y b.v_x b.v_y
      ((b.x - a.x) / hypot (b.x - a.x) (b.y - a.y))
      ((b.y - a.y) / hypot (b.x - a.x) (b.y - a.y)) ha hb hM hn

/-- Witness for C4 at a concrete input: masses `1` and `3`, centers
`(0,0)` and `(0,1)`, velocities `(0,3)` and `(2,0)`. -/
theorem claim_C4_energy_conserved_witness :
    kineticEnergy (resolve_collision ⟨1, 0, 0, 0, 3, 2⟩ ⟨3, 0, 1, 2, 0, 1⟩).1 +
        kineticEnergy (resolve_collision ⟨1, 0, 0, 0, 3, 2⟩ ⟨3, 0, 1, 2, 0, 1⟩).2 =
      kineticEnergy ⟨1, 0, 0, 0, 3, 2⟩ + kineticEnergy ⟨3, 0, 1, 2, 0, 1⟩ :=
  claim_C4_energy_conserved ⟨1, 0, 0, 0, 3, 2⟩ ⟨3, 0, 1, 2, 0, 1⟩
    (by norm_num) (by norm_num) (by norm_num)

/-- Claim C9: whenever `resolve_collision` reaches its
impulse-and-separation branch (nonzero center distance and
normal-projected relative velocity `dot <= 0`), the center distance of
the returned pair is exactly `r_a + r_b + 1`, so `check_collision` on the
returned pair is false (radii are positive, per the data-model
invariant). -/
theorem claim_C9_separated_after_resolution (a b : Particle) (hra : 0 < a.r) (hrb : 0 < b.r)
    (hd0 : hypot (b.x - a.x) (b.y - a.y) ≠ 0)
    (hdot : (a.v_x - b.v_x) * ((b.x - a.x) / hypot (b.x - a.x) (b.y - a.y)) +
        (a.v_y - b.v_y) * ((b.y - a.y) / hypot (b.x - a.x) (b.y - a.y)) ≤ 0) :
    hypot ((resolve_collision a b).2.x - (resolve_collision a b).1.x)
        ((resolve_collision a b).2.y - (resolve_collision a b).1.y) = a.r + b.r + 1 ∧
    ¬check_collision (resolve_collision a b).1 (resolve_collision a b).2 := by
  have hS : (0 : ℝ) ≤ a.r + b.r + 1 := by linarith
  simp only [resolve_collision, check_collision]
  split_ifs with h1 h2
  · exact absurd h1 hd0
  · exact absurd h2 (not_lt.mpr hdot)
  · dsimp only
    have hnn : (0 : ℝ) ≤ (b.x - a.x) ^ 2 + (b.y - a.y) ^ 2 := by positivity
    have hdsq : hypot (b.x - a.x) (b.y - a.y) ^ 2 = (b.x - a.x) ^ 2 + (b.y - a.y) ^ 2 :=
      Real.sq_sqrt hnn
    have hstep : ∀ px qx : ℝ,
        qx + (qx - px) / hypot (b.x - a.x) (b.y - a.y) *
            (0.5 * (a.r + b.r - hypot (b.x - a.x) (b.y - a.y) + 1)) -
          (px - (qx - px) / hypot (b.x - a.x) (b.y - a.y) *
            (0.5 * (a.r + b.r - hypot (b.x - a.x) (b.y - a.y) + 1))) =
        (qx - px) * ((a.r + b.r + 1) / hypot (b.x - a.x) (b.y - a.y)) := by
      intro px qx
      field_simp
      ring
    have hmain :
        hypot ((b.x - a.x) * ((a.r + b.r + 1) / hypot (b.x - a.x) (b.y - a.y)))
            ((b.y - a.y) * ((a.r + b.r + 1) / hypot (b.x - a.x) (b.y - a.y))) =
          a.r + b.r + 1 := by
      have hsum :
          ((b.x - a.x) * ((a.r + b.r + 1) / hypot (b.x - a.x) (b.y - a.y))) ^ 2 +
            ((b.y - a.y) * ((a.r + b.r + 1) / hypot (b.x - a.x) (b.y - a.y))) ^ 2 =
          (a.r + b.r + 1) ^ 2 := by
        have expand :
            ((b.x - a.x) * ((a.r + b.r + 1) / hypot (b.x - a.x) (b.y - a.y))) ^ 2 +
              ((b.y - a.y) * ((a.r + b.r + 1) / hypot (b.x - a.x) (b.y - a.y))) ^ 2 =
            ((b.x - a.x) ^ 2 + (b.y - a.y) ^ 2) *
              ((a.r + b.r + 1) / hypot (b.x - a.x) (b.y - a.y)) ^ 2 := by ring
        rw [expand, ← hdsq]
        field_simp
      rw [hypot, hsum, Real.sqrt_sq hS]
    rw [hstep a.x b.x, hstep a.y b.y, hmain]
    exact ⟨rfl, by linarith⟩

/-- Witness for C9 at a concrete input: radii `1`, centers `(0,0)` and
`(1,0)`, both particles at rest (so `dot = 0 <= 0`). -/
theorem claim_C9_separated_after_resolution_witness :
    hypot ((resolve_collision ⟨1, 0, 0, 0, 0, 1⟩ ⟨1, 1, 0, 0, 0, 1⟩).2.x -
          (resolve_collision ⟨1, 0, 0, 0, 0, 1⟩ ⟨1, 1, 0, 0, 0, 1⟩).1.x)
        ((resolve_collision ⟨1, 0, 0, 0, 0, 1⟩ ⟨1, 1, 0, 0, 0, 1⟩).2.y -
          (resolve_collision ⟨1, 0, 0, 0, 0, 1⟩ ⟨1, 1, 0, 0, 0, 1⟩).1.y) = 1 + 1 + 1 ∧
    ¬check_collision (resolve_collision ⟨1, 0, 0, 0, 0, 1⟩ ⟨1, 1, 0, 0, 0, 1⟩).1
        (resolve_collision ⟨1, 0, 0, 0, 0, 1⟩ ⟨1, 1, 0, 0, 0, 1⟩).2 :=
  claim_C9_separated_after_resolution ⟨1, 0, 0, 0, 0, 1⟩ ⟨1, 1, 0, 0, 0, 1⟩
    (by norm_num) (by norm_num)
    (by norm_num [hypot, Real.sqrt_one])
    (by norm_num)

/-- Claim C5: for a particle whose diameter fits in the domain
(`0 < 2r <= width` and `0 < 2r <= height`), after any call to `move` --
from any starting state, hence after every call of any sequence of
calls -- the position satisfies `r <= x <= width - r` and
`r <= y <= height - r`. -/
theorem claim_C5_wall_containment (p : Particle) (dt : ℝ) (h0 : 0 < 2 * p.r)
    (hW : 2 * p.r ≤ SCREEN_WIDTH) (hH : 2 * p.r ≤ SCREEN_HEIGHT) :
    p.r ≤ (p.move dt).1.x ∧ (p.move dt).1.x ≤ SCREEN_WIDTH - p.r ∧
    p.r ≤ (p.move dt).1.y ∧ (p.move dt).1.y ≤ SCREEN_HEIGHT - p.r := by
  have hrW : p.r ≤ SCREEN_WIDTH - p.r := by linarith
  have hrH : p.r ≤ SCREEN_HEIGHT - p.r := by linarith
  have hx : p.r ≤ (p.move dt).1.x ∧ (p.move dt).1.x ≤ SCREEN_WIDTH - p.r := by
    simp only [Particle.move]
    by_cases hbx : p.bounceX dt
    · simp only [hbx, if_true]
      exact ⟨le_max_left _ _, max_le hrW (min_le_left _ _)⟩
    · simp only [hbx, if_false]
      simp only [Particle.bounceX, not_or, not_lt] at hbx
      exact ⟨by linarith [hbx.1], by linarith [hbx.2]⟩
  have hy : p.r ≤ (p.move dt).1.y ∧ (p.move dt).1.y ≤ SCREEN_HEIGHT - p.r := by
    simp only [Particle.move]
    by_cases hby : p.bounceY dt
    · simp only [hby, if_true]
      exact ⟨le_max_left _ _, max_le hrH (min_le_left _ _)⟩
    · simp only [hby, if_false]
      simp only [Particle.bounceY, not_or, not_lt] at hby
      exact ⟨by linarith [hby.1], by linarith [hby.2]⟩
  exact ⟨hx.1, hx.2, hy.1, hy.2⟩

/-- Witness for C5 at a concrete input: radius `1`, starting at the
origin corner with velocity `(-5, 2000)` and `dt = 1`, so both axes
bounce. -/
theorem claim_C5_wall_containment_witness :
    (⟨1, 0, 0, -5, 2000, 1⟩ : Particle).r ≤
        ((⟨1, 0, 0, -5, 2000, 1⟩ : Particle).move 1).1.x ∧
    ((⟨1, 0, 0, -5, 2000, 1⟩ : Particle).move 1).1.x ≤
        SCREEN_WIDTH - (⟨1, 0, 0, -5, 2000, 1⟩ : Particle).r ∧
    (⟨1, 0, 0, -5, 2000, 1⟩ : Particle).r ≤
        ((⟨1, 0, 0, -5, 2000, 1⟩ : Particle).move 1).1.y ∧
    ((⟨1, 0, 0, -5, 2000, 1⟩ : Particle).move 1).1.y ≤
        SCREEN_HEIGHT - (⟨1, 0, 0, -5, 2000, 1⟩ : Particle).r :=
  claim_C5_wall_containment ⟨1, 0, 0, -5, 2000, 1⟩ 1 (by norm_num)
    (by norm_num [SCREEN_WIDTH]) (by norm_num [SCREEN_HEIGHT])

/-- The post-move x-wall test of the accumulator (`p.x - p.r <= 0 or
p.x + p.r >= SCREEN_WIDTH` on the moved position) holds iff the x axis
bounced, or the post-update x position rests exactly at a wall margin. -/
theorem moveX_touch_iff (p : Particle) (dt : ℝ) (hrW : p.r ≤ SCREEN_WIDTH - p.r) :
    ((if p.bounceX dt then max p.r (min (SCREEN_WIDTH - p.r) (p.x + p.v_x * dt))
        else p.x + p.v_x * dt) - p.r ≤ 0 ∨
     (if p.bounceX dt then max p.r (min (SCREEN_WIDTH - p.r) (p.x + p.v_x * dt))
        else p.x + p.v_x * dt) + p.r ≥ SCREEN_WIDTH) ↔
    (p.bounceX dt ∨ p.x + p.v_x * dt = p.r ∨ p.x + p.v_x * dt = SCREEN_WIDTH - p.r) := by
  by_cases hbx : p.bounceX dt
  · simp only [hbx, if_true, true_or, iff_true]
    rcases hbx with h | h
    · left
      rw [min_eq_right (by linarith : p.x + p.v_x * dt ≤ SCREEN_WIDTH - p.r),
        max_eq_left (by linarith : p.x + p.v_x * dt ≤ p.r)]
      linarith
    · right
      rw [min_eq_left (by linarith : SCREEN_WIDTH - p.r ≤ p.x + p.v_x * dt),
        max_eq_right hrW]
      linarith
  · simp only [hbx, if_false, false_or]
    have hx := hbx
    simp only [Particle.bounceX, not_or, not_lt] at hx
    constructor
    · rintro (h | h)
      · left; linarith [hx.1]
      · right; linarith [hx.2]
    · rintro (h | h)
      · left; linarith
      · right; linarith

/-- The post-move y-wall test of the accumulator holds iff the y axis
bounced, or the post-update y position rests exactly at a wall margin. -/
theorem moveY_touch_iff (p : Particle) (dt : ℝ) (hrH : p.r ≤ SCREEN_HEIGHT - p.r) :
    ((if p.bounceY dt then max p.r (min (SCREEN_HEIGHT - p.r) (p.y + p.v_y * dt))
        else p.y + p.v_y * dt) - p.r ≤ 0 ∨
     (if p.bounceY dt then max p.r (min (SCREEN_HEIGHT - p.r) (p.y + p.v_y * dt))
        else p.y + p.v_y * dt) + p.r ≥ SCREEN_HEIGHT) ↔
    (p.bounceY dt ∨ p.y + p.v_y * dt = p.r ∨ p.y + p.v_y * dt = SCREEN_HEIGHT - p.r) := by
  by_cases hby : p.bounceY dt
  · simp only [hby, if_true, true_or, iff_true]
    rcases hby with h | h
    · left
      rw [min_eq_right (by linarith : p.y + p.v_y * dt ≤ SCREEN_HEIGHT - p.r),
        max_eq_left (by linarith : p.y + p.v_y * dt ≤ p.r)]
      linarith
    · right
      rw [min_eq_left (by linarith : SCREEN_HEIGHT - p.r ≤ p.y + p.v_y * dt),
        max_eq_right hrH]
      linarith
  · simp only [hby, if_false, false_or]
    have hy := hby
    simp only [Particle.bounceY, not_or, not_lt] at hy
    constructor
    · rintro (h | h)
      · left; linarith [hy.1]
      · right; linarith [hy.2]
    · rintro (h | h)
      · left; linarith
      · right; linarith

/-- Claim C8 (counterexample): a particle of mass `1`, radius `1` at
`(1/2, 899.5)` with velocity `(1/2, 1)` and `dt = 1` does not bounce on
the x axis (its new x position is exactly `1 = r`, not past the wall),
yet the momentum-transfer amount of the tick (`3`) differs from
`2 m |v|` summed over the bounced axes only (`2`): the x axis
contributes without having bounced. -/
theorem claim_C8_counterexample :
    ¬Particle.bounceX ⟨1, 1/2, 1799/2, 1/2, 1, 1⟩ 1 ∧
    (simStep ⟨1, 1/2, 1799/2, 1/2, 1, 1⟩ 1).2.1 ≠
      (if Particle.bounceX ⟨1, 1/2, 1799/2, 1/2, 1, 1⟩ 1 then
          2 * (1 : ℝ) * |(1/2 : ℝ)| else 0) +
      (if Particle.bounceY ⟨1, 1/2, 1799/2, 1/2, 1, 1⟩ 1 then
          2 * (1 : ℝ) * |(1 : ℝ)| else 0) := by
  have hbx : ¬Particle.bounceX ⟨1, 1/2, 1799/2, 1/2, 1, 1⟩ 1 := by
    norm_num [Particle.bounceX, SCREEN_WIDTH]
  have hby : Particle.bounceY ⟨1, 1/2, 1799/2, 1/2, 1, 1⟩ 1 := by
    norm_num [Particle.bounceY, SCREEN_HEIGHT]
  refine ⟨hbx, ?_⟩
  norm_num [simStep, Particle.move, hbx, hby, min_def, max_def,
    SCREEN_WIDTH, SCREEN_HEIGHT]

/-- Claim C8 (amended): in a tick, the bounce counter grows by the number
of bounced axes, and the momentum-transfer accumulator grows by
`2 m |pre-move velocity component|` for every bounced axis -- but also
for a non-bounced axis whose post-update position rests exactly at a wall
margin (`pos = r` or `pos = bound - r`) while the other axis bounced. -/
theorem claim_C8_amended (p : Particle) (dt : ℝ) (hr : 0 < p.r)
    (hW : 2 * p.r ≤ SCREEN_WIDTH) (hH : 2 * p.r ≤ SCREEN_HEIGHT) :
    (simStep p dt).2.2 =
      (if p.bounceX dt then 1 else 0) + (if p.bounceY dt then 1 else 0) ∧
    (simStep p dt).2.1 =
      (if p.bounceX dt ∨ ((p.bounceX dt ∨ p.bounceY dt) ∧
          (p.x + p.v_x * dt = p.r ∨ p.x + p.v_x * dt = SCREEN_WIDTH - p.r)) then
        2 * p.m * |p.v_x| else 0) +
      (if p.bounceY dt ∨ ((p.bounceX dt ∨ p.bounceY dt) ∧
          (p.y + p.v_y * dt = p.r ∨ p.y + p.v_y * dt = SCREEN_HEIGHT - p.r)) then
        2 * p.m * |p.v_y| else 0) := by
  have hrW : p.r ≤ SCREEN_WIDTH - p.r := by linarith
  have hrH : p.r ≤ SCREEN_HEIGHT - p.r := by linarith
  constructor
  · rfl
  · simp only [simStep, Particle.move]
    simp only [moveX_touch_iff p dt hrW, moveY_touch_iff p dt hrH]
    by_cases hbx : p.bounceX dt <;> by_cases hby : p.bounceY dt <;>
      simp [hbx, hby]

/-- Witness for the amended C8 at a concrete input: a particle at the
domain center with zero velocity (no bounce, no transfer). -/
theorem claim_C8_amended_witness :
    (simStep ⟨1, 450, 450, 0, 0, 1⟩ 1).2.2 =
      (if Particle.bounceX ⟨1, 450, 450, 0, 0, 1⟩ 1 then 1 else 0) +
      (if Particle.bounceY ⟨1, 450, 450, 0, 0, 1⟩ 1 then 1 else 0) ∧
    (simStep ⟨1, 450, 450, 0, 0, 1⟩ 1).2.1 =
      (if Particle.bounceX ⟨1, 450, 450, 0, 0, 1⟩ 1 ∨
          ((Particle.bounceX ⟨1, 450, 450, 0, 0, 1⟩ 1 ∨
            Particle.bounceY ⟨1, 450, 450, 0, 0, 1⟩ 1) ∧
           ((450 : ℝ) + 0 * 1 = 1 ∨ (450 : ℝ) + 0 * 1 = SCREEN_WIDTH - 1)) then
        2 * (1 : ℝ) * |(0 : ℝ)| else 0) +
      (if Particle.bounceY ⟨1, 450, 450, 0, 0, 1⟩ 1 ∨
          ((Particle.bounceX ⟨1, 450, 450, 0, 0, 1⟩ 1 ∨
            Particle.bounceY ⟨1, 450, 450, 0, 0, 1⟩ 1) ∧
           ((450 : ℝ) + 0 * 1 = 1 ∨ (450 : ℝ) + 0 * 1 = SCREEN_HEIGHT - 1)) then
        2 * (1 : ℝ) * |(0 : ℝ)| else 0) :=
  claim_C8_amended ⟨1, 450, 450, 0, 0, 1⟩ 1 (by norm_num)
    (by norm_num [SCREEN_WIDTH]) (by norm_num [SCREEN_HEIGHT])

/-- The x leg is bounded by the hypotenuse. -/
theorem abs_dx_le_hypot (dx dy : ℝ) : |dx| ≤ hypot dx dy := by
  rw [hypot, ← Real.sqrt_sq_eq_abs]
  exact Real.sqrt_le_sqrt (le_add_of_nonneg_right (sq_nonneg dy))

/-- The y leg is bounded by the hypotenuse. -/
theorem abs_dy_le_hypot (dx dy : ℝ) : |dy| ≤ hypot dx dy := by
  rw [hypot, ← Real.sqrt_sq_eq_abs]
  exact Real.sqrt_le_sqrt (le_add_of_nonneg_left (sq_nonneg dx))

/-- Two reals closer than `G` land in the same or adjacent floor cells. -/
theorem floor_adjacent (G x y : ℝ) (hG : 0 < G) (h : |x - y| < G) :
    |⌊x / G⌋ - ⌊y / G⌋| ≤ 1 := by
  rw [abs_sub_lt_iff] at h
  have key : ∀ u w : ℝ, u - w < G → ⌊u / G⌋ ≤ ⌊w / G⌋ + 1 := by
    intro u w huw
    have hdiv : u / G ≤ w / G + 1 := by
      rw [← div_self (ne_of_gt hG), div_add_div_same]
      exact (div_le_div_iff_of_pos_right hG).mpr (by linarith)
    calc ⌊u / G⌋ ≤ ⌊w / G + 1⌋ := Int.floor_le_floor hdiv
      _ = ⌊w / G⌋ + 1 := Int.floor_add_one _
  have h1 := key x y h.1
  have h2 := key y x h.2
  rw [abs_le]
  omega

/-- A cell whose coordinates differ by at most one on each axis is in the
Moore neighborhood list. -/
theorem mem_neighbors (c e : ℤ × ℤ) (h1 : |e.1 - c.1| ≤ 1) (h2 : |e.2 - c.2| ≤ 1) :
    e ∈ neighbors c := by
  rw [abs_le] at h1 h2
  simp only [neighbors, List.mem_flatMap, List.mem_map]
  refine ⟨e.1 - c.1, ?_, e.2 - c.2, ?_, ?_⟩
  · simp only [List.mem_cons, List.mem_singleton]
    omega
  · simp only [List.mem_cons, List.mem_singleton]
    omega
  · have h3 : c.1 + (e.1 - c.1) = e.1 := by ring
    have h4 : c.2 + (e.2 - c.2) = e.2 := by ring
    rw [h3, h4]

/-- Inserting into the bucket of `c` appends to `gridGet` at `c`. -/
theorem gridGet_gridInsert_same (g : Grid) (c : ℤ × ℤ) (i : ℕ) :
    gridGet (gridInsert g c i) c = gridGet g c ++ [i] := by
  induction g with
  | nil => simp [gridInsert, gridGet]
  | cons hd t ih =>
      obtain ⟨c', l⟩ := hd
      by_cases h : c' = c
      · simp [gridInsert, gridGet, h]
      · simp [gridInsert, gridGet, h, ih]

/-- Inserting into the bucket of another key leaves `gridGet` at `c`
unchanged. -/
theorem gridGet_gridInsert_other (g : Grid) (c c' : ℤ × ℤ) (i : ℕ) (h : c ≠ c') :
    gridGet (gridInsert g c' i) c = gridGet g c := by
  induction g with
  | nil => simp [gridInsert, gridGet, Ne.symm h]
  | cons hd t ih =>
      obtain ⟨c0, l⟩ := hd
      by_cases h0 : c0 = c'
      · subst h0
        simp only [gridInsert, if_pos rfl]
        simp [gridGet, Ne.symm h]
      · simp only [gridInsert, if_neg h0]
        by_cases h1 : c0 = c
        · simp [gridGet, h1]
        · simp [gridGet, h1, ih]

/-- `gridGet` membership is preserved by any insertion. -/
theorem mem_gridGet_gridInsert (g : Grid) (c c' : ℤ × ℤ) (i j : ℕ)
    (h : j ∈ gridGet g c) : j ∈ gridGet (gridInsert g c' i) c := by
  by_cases hc : c = c'
  · subst hc
    rw [gridGet_gridInsert_same]
    exact List.mem_append_left _ h
  · rw [gridGet_gridInsert_other g c c' i hc]
    exact h

/-- `gridGet` membership is preserved by the rest of the build loop. -/
theorem mem_gridGet_buildGridAux (G : ℝ) (L : List Particle) (i : ℕ) (g : Grid)
    (c : ℤ × ℤ) (j : ℕ) (h : j ∈ gridGet g c) :
    j ∈ gridGet (buildGridAux G L i g) c := by
  induction L generalizing i g with
  | nil => exact h
  | cons p t ih =>
      exact ih (i + 1) _ (mem_gridGet_gridInsert g c _ i j h)

/-- Every particle of the build loop ends up in `gridGet` at its own
cell. -/
theorem self_mem_gridGet_buildGridAux (G : ℝ) (L : List Particle) (i : ℕ) (g : Grid)
    (k : ℕ) (hk : k < L.length) :
    i + k ∈ gridGet (buildGridAux G L i g)
      (get_cell G (L.getD k default).x (L.getD k default).y) := by
  induction L generalizing i g k with
  | nil => exact absurd hk (Nat.not_lt_zero k)
  | cons p t ih =>
      cases k with
      | zero =>
          have hbase : i ∈ gridGet (gridInsert g (get_cell G p.x p.y) i)
              (get_cell G p.x p.y) := by
            rw [gridGet_gridInsert_same]
            exact List.mem_append_right _ (List.mem_singleton_self i)
          simpa using mem_gridGet_buildGridAux G t (i + 1) _ _ _ hbase
      | succ k =>
          have hik : i + (k + 1) = (i + 1) + k := by omega
          rw [hik]
          simpa using ih (i + 1) (gridInsert g (get_cell G p.x p.y) i) k
            (Nat.lt_of_succ_lt_succ hk)

/-- Inserting anywhere yields an entry of the inserted key containing the
inserted index. -/
theorem entry_gridInsert_self (g : Grid) (c : ℤ × ℤ) (i : ℕ) :
    ∃ l, (c, l) ∈ gridInsert g c i ∧ i ∈ l := by
  induction g with
  | nil => exact ⟨[i], List.mem_singleton_self _, List.mem_singleton_self _⟩
  | cons hd t ih =>
      obtain ⟨c', l⟩ := hd
      by_cases h : c' = c
      · subst h
        exact ⟨l ++ [i], by simp [gridInsert], List.mem_append_right _ (List.mem_singleton_self i)⟩
      · obtain ⟨l', hl', hi⟩ := ih
        exact ⟨l', by simp [gridInsert, h, hl'], hi⟩

/-- Bucket membership of an entry is preserved by any insertion. -/
theorem entry_gridInsert_mono (g : Grid) (c c' : ℤ × ℤ) (i j : ℕ)
    (h : ∃ l, (c, l) ∈ g ∧ j ∈ l) :
    ∃ l, (c, l) ∈ gridInsert g c' i ∧ j ∈ l := by
  induction g with
  | nil => simp at h
  | cons hd t ih =>
      obtain ⟨c0, l0⟩ := hd
      obtain ⟨l, hl, hj⟩ := h
      rcases List.mem_cons.mp hl with hhd | htl
      · have h1 : c = c0 := (Prod.ext_iff.mp hhd).1
        have h2 : l = l0 := (Prod.ext_iff.mp hhd).2
        subst h1
        subst h2
        by_cases h0 : c = c'
        · subst h0
          exact ⟨l ++ [i], by simp [gridInsert], List.mem_append_left _ hj⟩
        · refine ⟨l, ?_, hj⟩
          simp only [gridInsert, if_neg h0]
          exact List.mem_cons_self _ _
      · by_cases h0 : c0 = c'
        · subst h0
          refine ⟨l, ?_, hj⟩
          simp only [gridInsert, if_pos rfl]
          exact List.mem_cons_of_mem _ htl
        · obtain ⟨l', hl', hj'⟩ := ih ⟨l, htl, hj⟩
          refine ⟨l', ?_, hj'⟩
          simp only [gridInsert, if_neg h0]
          exact List.mem_cons_of_mem _ hl'

/-- Bucket membership of an entry is preserved by the rest of the build
loop. -/
theorem entry_buildGridAux_mono (G : ℝ) (L : List Particle) (i : ℕ) (g : Grid)
    (c : ℤ × ℤ) (j : ℕ) (h : ∃ l, (c, l) ∈ g ∧ j ∈ l) :
    ∃ l, (c, l) ∈ buildGridAux G L i g ∧ j ∈ l := by
  induction L generalizing i g with
  | nil => exact h
  | cons p t ih =>
      exact ih (i + 1) _ (entry_gridInsert_mono g c _ i j h)

/-- Every particle of the build loop ends up in the bucket of some entry
keyed by its own cell. -/
theorem entry_buildGridAux (G : ℝ) (L : List Particle) (i : ℕ) (g : Grid)
    (k : ℕ) (hk : k < L.length) :
    ∃ l, (get_cell G (L.getD k default).x (L.getD k default).y, l) ∈
        buildGridAux G L i g ∧ i + k ∈ l := by
  induction L generalizing i g k with
  | nil => exact absurd hk (Nat.not_lt_zero k)
  | cons p t ih =>
      cases k with
      | zero =>
          have hbase := entry_gridInsert_self g (get_cell G p.x p.y) i
          simpa using entry_buildGridAux_mono G t (i + 1) _ _ _ hbase
      | succ k =>
          have hik : i + (k + 1) = (i + 1) + k := by omega
          rw [hik]
          simpa using ih (i + 1) (gridInsert g (get_cell G p.x p.y) i) k
            (Nat.lt_of_succ_lt_succ hk)

/-- Sufficient condition for an ordered pair to occur in the encounter
sequence: `i` sits in the bucket of some entry, the neighbor cell is in
the Moore list of that entry's key, and `j` is in `gridGet` of the
neighbor cell. -/
theorem mem_encounters_of (g : Grid) (c nb : ℤ × ℤ) (i j : ℕ) (l : List ℕ)
    (hentry : (c, l) ∈ g) (hi : i ∈ l) (hnb : nb ∈ neighbors c)
    (hj : j ∈ gridGet g nb) : (i, j) ∈ encounters g := by
  simp only [encounters, List.mem_flatMap, List.mem_map]
  exact ⟨(c, l), hentry, i, hi, nb, hnb, j, hj, rfl⟩

/-- The `visited` component of one loop-body step. -/
theorem passStep_visited (s : PassState) (ab : ℕ × ℕ) :
    (passStep s ab).visited =
      if ab.1 = ab.2 ∨ (ab.1, ab.2) ∈ s.visited ∨ (ab.2, ab.1) ∈ s.visited then s.visited
      else (ab.1, ab.2) :: s.visited := by
  rw [passStep]
  split_ifs <;> rfl

/-- The `log` component of one loop-body step. -/
theorem passStep_log (s : PassState) (ab : ℕ × ℕ) :
    (passStep s ab).log =
      if ab.1 = ab.2 ∨ (ab.1, ab.2) ∈ s.visited ∨ (ab.2, ab.1) ∈ s.visited then s.log
      else s.log ++ [(ab.1, ab.2)] := by
  rw [passStep]
  split_ifs <;> rfl

/-- Deduplication invariant of the collision loop: folding the loop body
over an encounter sequence `E` adds the unordered pair `{i, j}` to the
check log exactly once if the pair occurs in `E` and was not yet visited,
and never otherwise. -/
theorem passFold_count (E : List (ℕ × ℕ)) (s : PassState) (i j : ℕ) (hij : i ≠ j) :
    (E.foldl passStep s).log.count (i, j) + (E.foldl passStep s).log.count (j, i) =
      s.log.count (i, j) + s.log.count (j, i) +
        (if ((i, j) ∉ s.visited ∧ (j, i) ∉ s.visited) ∧ ((i, j) ∈ E ∨ (j, i) ∈ E)
          then 1 else 0) := by
  induction E generalizing s with
  | nil => simp
  | cons ab t ih =>
      obtain ⟨a, b⟩ := ab
      rw [List.foldl_cons, ih (passStep s (a, b)), passStep_visited, passStep_log]
      by_cases hskip : (a, b).1 = (a, b).2 ∨ ((a, b).1, (a, b).2) ∈ s.visited ∨
          ((a, b).2, (a, b).1) ∈ s.visited
      · rw [if_pos hskip, if_pos hskip]
        congr 1
        by_cases hseen : (i, j) ∉ s.visited ∧ (j, i) ∉ s.visited
        · have hnm1 : (i, j) ≠ (a, b) := by
            intro he
            have e1 : i = a := congrArg Prod.fst he
            have e2 : j = b := congrArg Prod.snd he
            subst e1
            subst e2
            rcases hskip with h | h | h
            · exact hij h
            · exact hseen.1 h
            · exact hseen.2 h
          have hnm2 : (j, i) ≠ (a, b) := by
            intro he
            have e1 : j = a := congrArg Prod.fst he
            have e2 : i = b := congrArg Prod.snd he
            subst e1
            subst e2
            rcases hskip with h | h | h
            · exact hij h.symm
            · exact hseen.2 h
            · exact hseen.1 h
          simp [List.mem_cons, hnm1, hnm2]
        · rw [if_neg (fun hc => hseen hc.1), if_neg (fun hc => hseen hc.1)]
      · rw [if_neg hskip, if_neg hskip]
        push_neg at hskip
        obtain ⟨hne, hv1, hv2⟩ := hskip
        simp only [List.count_append, List.count_cons, List.count_nil, beq_iff_eq]
        by_cases hm1 : (i, j) = (a, b)
        · have e1 : i = a := congrArg Prod.fst hm1
          have e2 : j = b := congrArg Prod.snd hm1
          subst e1
          subst e2
          simp [List.mem_cons, hv1, hv2, hij, Ne.symm hij]
          omega
        · by_cases hm2 : (j, i) = (a, b)
          · have e1 : j = a := congrArg Prod.fst hm2
            have e2 : i = b := congrArg Prod.snd hm2
            subst e1
            subst e2
            simp [List.mem_cons, hv1, hv2, hij, Ne.symm hij]
            omega
          · have g1 : ¬(a = i ∧ b = j) := fun hc => hm1 (by rw [hc.1, hc.2])
            have g2 : ¬(a = j ∧ b = i) := fun hc => hm2 (by rw [hc.1, hc.2])
            simp [List.mem_cons, hm1, hm2, g1, g2]

/-- Claim C7: in one tick's collision pass over a grid with cell size at
least every particle diameter, every unordered pair of distinct particles
whose center distance (at grid-build time) is below the sum of their
radii has the collision check performed for it exactly once: the pair
shares a Moore neighborhood (at least once), and the visited-pair set
blocks repeats (at most once). -/
theorem claim_C7_overlapping_pair_checked_once (G : ℝ) (ps : List Particle) (i j : ℕ)
    (hG : 0 < G) (hr : ∀ p ∈ ps, 2 * p.r ≤ G)
    (hi : i < ps.length) (hj : j < ps.length) (hij : i ≠ j)
    (hov : hypot ((ps.getD j default).x - (ps.getD i default).x)
        ((ps.getD j default).y - (ps.getD i default).y) <
      (ps.getD i default).r + (ps.getD j default).r) :
    (collisionPass G ps).log.count (i, j) + (collisionPass G ps).log.count (j, i) = 1 := by
  have hmemi : ps.getD i default ∈ ps := by
    rw [List.getD_eq_getElem ps default hi]
    exact List.getElem_mem hi
  have hmemj : ps.getD j default ∈ ps := by
    rw [List.getD_eq_getElem ps default hj]
    exact List.getElem_mem hj
  have hsum : (ps.getD i default).r + (ps.getD j default).r ≤ G := by
    have h1 := hr _ hmemi
    have h2 := hr _ hmemj
    linarith
  have hxd : |(ps.getD j default).x - (ps.getD i default).x| < G :=
    lt_of_le_of_lt (abs_dx_le_hypot _ _) (lt_of_lt_of_le hov hsum)
  have hyd : |(ps.getD j default).y - (ps.getD i default).y| < G :=
    lt_of_le_of_lt (abs_dy_le_hypot _ _) (lt_of_lt_of_le hov hsum)
  have hfx : |⌊(ps.getD j default).x / G⌋ - ⌊(ps.getD i default).x / G⌋| ≤ 1 :=
    floor_adjacent G _ _ hG hxd
  have hfy : |⌊(ps.getD j default).y / G⌋ - ⌊(ps.getD i default).y / G⌋| ≤ 1 :=
    floor_adjacent G _ _ hG hyd
  have hnb : get_cell G (ps.getD j default).x (ps.getD j default).y ∈
      neighbors (get_cell G (ps.getD i default).x (ps.getD i default).y) :=
    mem_neighbors _ _ hfx hfy
  obtain ⟨l, hentry, hil⟩ := entry_buildGridAux G ps 0 [] i hi
  rw [Nat.zero_add] at hil
  have hjget := self_mem_gridGet_buildGridAux G ps 0 [] j hj
  rw [Nat.zero_add] at hjget
  have henc : (i, j) ∈ encounters (buildGrid G ps) :=
    mem_encounters_of _ _ _ i j l hentry hil hnb hjget
  rw [collisionPass, passFold_count _ _ i j hij]
  simp only [List.count_nil, List.not_mem_nil, not_false_iff, true_and, Nat.zero_add]
  rw [if_pos (Or.inl henc)]

/-- Witness for C7 at a concrete input: two unit-radius particles at
`(0,0)` and `(1,0)` (distance `1 < 2`), cell size `10`. -/
theorem claim_C7_overlapping_pair_checked_once_witness :
    (collisionPass 10 [⟨1, 0, 0, 0, 0, 1⟩, ⟨1, 1, 0, 0, 0, 1⟩]).log.count (0, 1) +
      (collisionPass 10 [⟨1, 0, 0, 0, 0, 1⟩, ⟨1, 1, 0, 0, 0, 1⟩]).log.count (1, 0) = 1 :=
  claim_C7_overlapping_pair_checked_once 10 [⟨1, 0, 0, 0, 0, 1⟩, ⟨1, 1, 0, 0, 0, 1⟩] 0 1
    (by norm_num)
    (by
      intro p hp
      simp only [List.mem_cons, List.not_mem_nil, or_false] at hp
      rcases hp with rfl | rfl <;> norm_num)
    (by simp)
    (by simp)
    (by decide)
    (by
      simp only [List.getD]
      norm_num [hypot, Real.sqrt_one])
